import Mathlib

/-!
Verification of the squeue Mongo-backed job queue (`lib/squeue.js`).

The queue collection is modelled as a `List Doc`; each engine method of
the `Queue` class is translated into a pure function on that list.
Timestamps are naturals (`new Date()` is passed in as a `now` argument),
Mongo `_id`s are naturals handed out by the caller, and the opaque
message payload is modelled as a `String` (JS falsiness of a string is
emptiness).  Driver callbacks that reject become `Except` errors.
-/

namespace Squeue

/-- Errors surfaced by the engine.  `invalidArgument` stands for the
source's `Error('must supply a queue message')` and
`Error('Mongo connection string is required')`; `typeError` stands for a
JS `TypeError` thrown by dereferencing `null`/`undefined`;
`notFound` exists only for the spec-side comparison definition. -/
inductive QErr
  | invalidArgument
  | typeError
  | notFound
deriving DecidableEq, Repr

/-- A queue document, mirroring `defaultDoc` plus the fields `add` sets
(`message`, `priority`, `created_at`) and the store-assigned `_id`. -/
structure Doc where
  id : Nat
  message : String
  priority : Int
  created_at : Nat
  locked : Bool
  locked_at : Option Nat
  retries : Nat
  complete : Bool
  completed_at : Option Nat
  dead : Bool
deriving DecidableEq, Repr

/-- The filter of `Queue.get`: `{ locked: false, complete: false, dead: false }`. -/
def eligible (d : Doc) : Bool :=
  !d.locked && !d.complete && !d.dead

/-- `a` strictly precedes `b` in the sort `{ priority: -1, created_at: 1 }`. -/
def betterD (a b : Doc) : Bool :=
  decide (b.priority < a.priority) ||
    (decide (a.priority = b.priority) && decide (a.created_at < b.created_at))

/-- `d` is at least as good as `e` under the sort
`{ priority: -1, created_at: 1 }`. -/
def notWorse (d e : Doc) : Prop :=
  e.priority ≤ d.priority ∧ (e.priority = d.priority → d.created_at ≤ e.created_at)

instance (d e : Doc) : Decidable (notWorse d e) := by
  unfold notWorse; infer_instance

/-- One step of the selection scan: fold the indexed document `(i, d)`
into the best-so-far accumulator, keeping the earlier document on ties. -/
def stepAcc (i : Nat) (d : Doc) (acc : Option (Nat × Doc)) : Option (Nat × Doc) :=
  if eligible d then
    match acc with
    | none => some (i, d)
    | some (j, b) => if betterD d b then some (i, d) else some (j, b)
  else acc

/-- Scan of the collection performed by `findOneAndUpdate` with a sort:
keep the first-encountered document that is minimal in the sort order
among those matching the filter, together with its position. -/
def pickFrom : List (Nat × Doc) → Option (Nat × Doc) → Option (Nat × Doc)
  | [], acc => acc
  | (i, d) :: rest, acc => pickFrom rest (stepAcc i d acc)

/-- The document `Queue.get`'s `findOneAndUpdate` selects, with its index. -/
def pick (docs : List Doc) : Option (Nat × Doc) :=
  pickFrom docs.enum none

/-- The `$set: { locked: true, locked_at: new Date() }` applied by `Queue.get`. -/
def lockDoc (now : Nat) (d : Doc) : Doc :=
  { d with locked := true, locked_at := some now }

/-- What `Queue.get` hands back to the caller: `{ id: doc.value._id,
message: doc.value.message }` and nothing else. -/
structure GetData where
  id : Nat
  message : String
deriving DecidableEq, Repr

/-- `Queue.get`: `findOneAndUpdate({locked:false, complete:false, dead:false},
{$set:{locked:true, locked_at:now}}, {sort:{priority:-1, created_at:1}})`.
When no document matches, the driver yields `doc.value = null` and the
callback dereferences `doc.value._id`, so the call throws a `TypeError`
instead of signalling an empty queue. -/
def get (now : Nat) (q : List Doc) : List Doc × Except QErr GetData :=
  match pick q with
  | none => (q, .error .typeError)
  | some (i, d) => (q.set i (lockDoc now d), .ok ⟨d.id, d.message⟩)

/-- `findOneAndUpdate({ _id })` applied to the model: update the first
document carrying the id (Mongo `_id`s are unique). -/
def updateFirst (p : Doc → Bool) (f : Doc → Doc) : List Doc → List Doc
  | [] => []
  | d :: ds => if p d then f d :: ds else d :: updateFirst p f ds

/-- `Queue.complete`: `findOneAndUpdate({_id: id}, {$set:{locked:false,
complete:true, completed_at:now}})`.  The callback ignores the result and
resolves unconditionally, so a missing id is a silent no-op. -/
def complete (now : Nat) (q : List Doc) (id : Nat) : List Doc :=
  updateFirst (fun d => d.id = id)
    (fun d => { d with locked := false, complete := true, completed_at := some now }) q

/-- Following the spec's words, for comparison with `complete`: the spec
says `complete` "Signals `NotFound` if `id` does not resolve to an
existing document". -/
def complete_specNotFound (now : Nat) (q : List Doc) (id : Nat) :
    Except QErr (List Doc) :=
  if q.any (fun d => d.id = id) then .ok (complete now q id) else .error .notFound

/-- `Queue.fail`: the `findOneAndUpdate({_id: id}, {$set:{locked:false},
$inc:{retries:1}})` commits (note: `locked_at` is not touched), but the
inner promise is resolved with no value, so the following
`.then(doc => { if(doc.retries >= self.maxRetries) ... })` dereferences
`undefined` and the returned promise always rejects with a `TypeError`;
`markDead` is never reached. -/
def fail (q : List Doc) (id : Nat) : List Doc × Except QErr Unit :=
  (updateFirst (fun d => d.id = id)
     (fun d => { d with locked := false, retries := d.retries + 1 }) q,
   .error .typeError)

/-- `Queue.markDead`: `findOneAndUpdate({_id: id}, {$set:{dead:true}})`,
unconditional. -/
def markDead (q : List Doc) (id : Nat) : List Doc :=
  updateFirst (fun d => d.id = id) (fun d => { d with dead := true }) q

/-- `deleteMany(filter)`: remove every matching document, report
`response.result.n`, the number removed. -/
def deleteMany (p : Doc → Bool) : List Doc → List Doc × Nat
  | [] => ([], 0)
  | d :: ds =>
      let r := deleteMany p ds
      if p d then (r.1, r.2 + 1) else (d :: r.1, r.2)

/-- `Queue.clean`: `deleteMany({ complete: true })`, resolving with the
count removed.  This is the only purge operation the engine provides;
nothing deletes `dead` documents. -/
def clean (q : List Doc) : List Doc × Nat :=
  deleteMany (fun d => d.complete) q

/-- `updateMany(filter, update)`: apply the update to every matching
document, report `response.result.nModified`. -/
def updateMany (p : Doc → Bool) (f : Doc → Doc) : List Doc → List Doc × Nat
  | [] => ([], 0)
  | d :: ds =>
      let r := updateMany p f ds
      if p d then (f d :: r.1, r.2 + 1) else (d :: r.1, r.2)

/-- The filter of `Queue.free`: `{ locked: true, locked_at: { $lte:
now - release } }` (the source works in milliseconds; the model keeps one
time unit throughout).  A `null` `locked_at` does not match `$lte` a date. -/
def expired (release : Nat) (now : Nat) (d : Doc) : Bool :=
  d.locked &&
    match d.locked_at with
    | some t => decide ((t : Int) ≤ (now : Int) - (release : Int))
    | none => false

/-- `Queue.free`: `updateMany({locked:true, locked_at:{$lte: now - release}},
{$set:{locked:false, locked_at:null}})`, resolving with `nModified`. -/
def free (release : Nat) (now : Nat) (q : List Doc) : List Doc × Nat :=
  updateMany (expired release now) (fun d => { d with locked := false, locked_at := none }) q

/-- JS falsiness of the `message` argument of `Queue.add`:
absent (`undefined`) or the empty string. -/
def jsFalsyMsg : Option String → Bool
  | none => true
  | some s => s.isEmpty

/-- `priority = priority || 1` in `Queue.add`: absent or falsy (`0`)
collapses to `1`. -/
def effPriority : Option Int → Int
  | none => 1
  | some p => if p = 0 then 1 else p

/-- `Queue.add`: rejects when `!message`; otherwise clones `defaultDoc`
(`locked:false, locked_at:null, retries:0, complete:false,
completed_at:null, dead:false`), stamps `message`, `priority`,
`created_at = now`, inserts it, and resolves with the stored document
(`response.ops[0]`, which carries the assigned `_id`, here `next`). -/
def add (next : Nat) (now : Nat) (q : List Doc) (message : Option String)
    (priority : Option Int) : Except QErr (List Doc × Doc) :=
  if jsFalsyMsg message then .error .invalidArgument
  else
    let doc : Doc :=
      { id := next, message := message.getD "", priority := effPriority priority,
        created_at := now, locked := false, locked_at := none, retries := 0,
        complete := false, completed_at := none, dead := false }
    .ok (q ++ [doc], doc)

/-- A JS value passed as the constructor's `conString` argument. -/
inductive JsVal
  | undef
  | null
  | boolV (b : Bool)
  | numV (n : Int)
  | strV (s : String)
deriving DecidableEq, Repr

/-- JS truthiness of a `JsVal`. -/
def JsVal.truthy : JsVal → Bool
  | .undef => false
  | .null => false
  | .boolV b => b
  | .numV n => decide (n ≠ 0)
  | .strV s => !s.isEmpty

/-- `typeof conString === 'string'`. -/
def JsVal.isStr : JsVal → Bool
  | .strV _ => true
  | _ => false

/-- The recognized options object (each field `undefined` when absent). -/
structure QOptions where
  collection : Option String := none
  release : Option Nat := none
  retries : Option Nat := none
deriving Repr

/-- The state the `Queue` constructor builds: pure field assignments,
no store interaction (the connection is opened lazily by `connect`). -/
structure QueueCfg where
  collectionName : String
  releaseTime : Nat
  maxRetries : Nat
  connString : String
deriving DecidableEq, Repr

/-- `x || default` for an optional string option. -/
def orDefaultS (v : Option String) (dflt : String) : String :=
  match v with
  | none => dflt
  | some s => if s.isEmpty then dflt else s

/-- `x || default` for an optional numeric option. -/
def orDefaultN (v : Option Nat) (dflt : Nat) : Nat :=
  match v with
  | none => dflt
  | some n => if n = 0 then dflt else n

/-- The `Queue` constructor: `options = options || {}`; throws
synchronously when `!conString || typeof conString !== 'string'`;
otherwise records the configuration (defaults: collection `"queue"`,
release `30`, retries `5`). -/
def mkQueue (conString : JsVal) (options : Option QOptions) :
    Except QErr QueueCfg :=
  let opts := options.getD {}
  if !conString.truthy || !conString.isStr then .error .invalidArgument
  else
    match conString with
    | .strV s =>
        .ok { collectionName := orDefaultS opts.collection "queue",
              releaseTime := orDefaultN opts.release 30,
              maxRetries := orDefaultN opts.retries 5,
              connString := s }
    | _ => .error .invalidArgument

/-- Equality of engine results is decidable (used to evaluate the model
on concrete queues). -/
instance {ε α : Type} [DecidableEq ε] [DecidableEq α] : DecidableEq (Except ε α) :=
  fun a b =>
    match a, b with
    | .ok x, .ok y =>
        if h : x = y then isTrue (by rw [h])
        else isFalse (by intro hc; cases hc; exact h rfl)
    | .ok _, .error _ => isFalse (by intro hc; cases hc)
    | .error _, .ok _ => isFalse (by intro hc; cases hc)
    | .error e, .error f =>
        if h : e = f then isTrue (by rw [h])
        else isFalse (by intro hc; cases hc; exact h rfl)

/-- A freshly enqueued (pending) document with an opaque payload, used in
concrete instantiations. -/
def pdoc (id : Nat) (pri : Int) (created : Nat) : Doc :=
  { id := id, message := "m", priority := pri, created_at := created,
    locked := false, locked_at := none, retries := 0, complete := false,
    completed_at := none, dead := false }

/-- A document claimed (locked) at time 10, used in concrete instantiations. -/
def lockedDoc10 : Doc := { pdoc 1 1 0 with locked := true, locked_at := some 10 }

/-! ### Properties of the sort comparator -/

theorem notWorse_refl (d : Doc) : notWorse d d :=
  ⟨le_refl _, fun _ => le_refl _⟩

theorem notWorse_trans {a b c : Doc} (h1 : notWorse a b) (h2 : notWorse b c) :
    notWorse a c := by
  refine ⟨le_trans h2.1 h1.1, fun hc => ?_⟩
  have hb : b.priority = a.priority := le_antisymm h1.1 (hc ▸ h2.1)
  exact le_trans (h1.2 hb) (h2.2 (hc.symm ▸ hb.symm ▸ rfl))

theorem notWorse_of_betterD {a b : Doc} (h : betterD a b = true) : notWorse a b := by
  simp only [betterD, Bool.or_eq_true, Bool.and_eq_true, decide_eq_true_eq] at h
  rcases h with h | ⟨h1, h2⟩
  · exact ⟨le_of_lt h, fun he => absurd (he ▸ h) (lt_irrefl _)⟩
  · exact ⟨le_of_eq h1.symm, fun _ => le_of_lt h2⟩

theorem notWorse_of_not_betterD {a b : Doc} (h : betterD a b = false) : notWorse b a := by
  simp only [betterD, Bool.or_eq_false_iff, Bool.and_eq_false_iff,
    decide_eq_false_iff_not, not_lt] at h
  refine ⟨h.1, fun he => ?_⟩
  rcases h.2 with h2 | h2
  · exact absurd he h2
  · exact h2

/-! ### Properties of the `findOneAndUpdate` selection scan -/

theorem stepAcc_none_elig {i : Nat} {d : Doc} (h : eligible d = true) :
    stepAcc i d none = some (i, d) := by
  simp [stepAcc, h]

theorem stepAcc_some_better {i j : Nat} {d b : Doc} (h : eligible d = true)
    (hb : betterD d b = true) : stepAcc i d (some (j, b)) = some (i, d) := by
  simp [stepAcc, h, hb]

theorem stepAcc_some_worse {i j : Nat} {d b : Doc} (h : eligible d = true)
    (hb : betterD d b = false) : stepAcc i d (some (j, b)) = some (j, b) := by
  simp [stepAcc, h, hb]

theorem stepAcc_inelig {i : Nat} {d : Doc} {acc : Option (Nat × Doc)}
    (h : eligible d = false) : stepAcc i d acc = acc := by
  simp [stepAcc, h]

theorem pickFrom_mem (l : List (Nat × Doc)) :
    ∀ (acc : Option (Nat × Doc)) (i : Nat) (d : Doc),
      pickFrom l acc = some (i, d) →
      ((i, d) ∈ l ∧ eligible d = true) ∨ acc = some (i, d) := by
  induction l with
  | nil => exact fun acc i d h => .inr h
  | cons x rest ih =>
      obtain ⟨j, e⟩ := x
      intro acc i d h
      simp only [pickFrom] at h
      by_cases helig : eligible e = true
      · rcases acc with _ | ⟨k, b⟩
        · rw [stepAcc_none_elig helig] at h
          rcases ih _ i d h with ⟨hm, he⟩ | hacc
          · exact .inl ⟨List.mem_cons_of_mem _ hm, he⟩
          · cases hacc
            exact .inl ⟨List.mem_cons_self _ _, helig⟩
        · by_cases hb : betterD e b = true
          · rw [stepAcc_some_better helig hb] at h
            rcases ih _ i d h with ⟨hm, he⟩ | hacc
            · exact .inl ⟨List.mem_cons_of_mem _ hm, he⟩
            · cases hacc
              exact .inl ⟨List.mem_cons_self _ _, helig⟩
          · rw [stepAcc_some_worse helig (eq_false_of_ne_true hb)] at h
            rcases ih _ i d h with ⟨hm, he⟩ | hacc
            · exact .inl ⟨List.mem_cons_of_mem _ hm, he⟩
            · exact .inr hacc
      · rw [stepAcc_inelig (eq_false_of_ne_true helig)] at h
        rcases ih _ i d h with ⟨hm, he⟩ | hacc
        · exact .inl ⟨List.mem_cons_of_mem _ hm, he⟩
        · exact .inr hacc

theorem pickFrom_acc_dom (l : List (Nat × Doc)) :
    ∀ (acc : Option (Nat × Doc)) (i : Nat) (d : Doc),
      pickFrom l acc = some (i, d) →
      ∀ j b, acc = some (j, b) → notWorse d b := by
  induction l with
  | nil =>
      intro acc i d h j b hacc
      rw [pickFrom, hacc] at h
      cases h
      exact notWorse_refl _
  | cons x rest ih =>
      obtain ⟨k, e⟩ := x
      intro acc i d h j b hacc
      subst hacc
      simp only [pickFrom] at h
      by_cases helig : eligible e = true
      · by_cases hb : betterD e b = true
        · rw [stepAcc_some_better helig hb] at h
          exact notWorse_trans (ih _ i d h k e rfl) (notWorse_of_betterD hb)
        · rw [stepAcc_some_worse helig (eq_false_of_ne_true hb)] at h
          exact ih _ i d h j b rfl
      · rw [stepAcc_inelig (eq_false_of_ne_true helig)] at h
        exact ih _ i d h j b rfl

theorem pickFrom_opt (l : List (Nat × Doc)) :
    ∀ (acc : Option (Nat × Doc)) (i : Nat) (d : Doc),
      pickFrom l acc = some (i, d) →
      ∀ j e, (j, e) ∈ l → eligible e = true → notWorse d e := by
  induction l with
  | nil =>
      intro acc i d _ j e hm
      exact absurd hm (List.not_mem_nil _)
  | cons x rest ih =>
      obtain ⟨k, x0⟩ := x
      intro acc i d h j e hm helig
      simp only [pickFrom] at h
      rcases List.mem_cons.mp hm with hx | hrest
      · obtain ⟨rfl, rfl⟩ : j = k ∧ e = x0 := by
          injection hx with h1 h2
          exact ⟨h1, h2⟩
        rcases acc with _ | ⟨k0, b⟩
        · rw [stepAcc_none_elig helig] at h
          exact pickFrom_acc_dom rest _ i d h j e rfl
        · by_cases hb : betterD e b = true
          · rw [stepAcc_some_better helig hb] at h
            exact pickFrom_acc_dom rest _ i d h j e rfl
          · rw [stepAcc_some_worse helig (eq_false_of_ne_true hb)] at h
            exact notWorse_trans (pickFrom_acc_dom rest _ i d h k0 b rfl)
              (notWorse_of_not_betterD (eq_false_of_ne_true hb))
      · exact ih _ i d h j e hrest helig

theorem pickFrom_none (l : List (Nat × Doc)) :
    ∀ (acc : Option (Nat × Doc)),
      pickFrom l acc = none →
      acc = none ∧ ∀ j e, (j, e) ∈ l → eligible e = false := by
  induction l with
  | nil =>
      intro acc h
      exact ⟨h, fun j e hm => absurd hm (List.not_mem_nil _)⟩
  | cons x rest ih =>
      obtain ⟨k, x0⟩ := x
      intro acc h
      simp only [pickFrom] at h
      by_cases helig : eligible x0 = true
      · exfalso
        rcases acc with _ | ⟨j, b⟩
        · rw [stepAcc_none_elig helig] at h
          exact Option.some_ne_none _ ((ih _ h).1)
        · by_cases hb : betterD x0 b = true
          · rw [stepAcc_some_better helig hb] at h
            exact Option.some_ne_none _ ((ih _ h).1)
          · rw [stepAcc_some_worse helig (eq_false_of_ne_true hb)] at h
            exact Option.some_ne_none _ ((ih _ h).1)
      · rw [stepAcc_inelig (eq_false_of_ne_true helig)] at h
        have hr := ih acc h
        refine ⟨hr.1, fun j e hm => ?_⟩
        rcases List.mem_cons.mp hm with hx | hrest
        · obtain ⟨rfl, rfl⟩ : j = k ∧ e = x0 := by
            injection hx with h1 h2
            exact ⟨h1, h2⟩
          exact eq_false_of_ne_true helig
        · exact hr.2 j e hrest

theorem pick_spec {q : List Doc} {i : Nat} {d : Doc} (h : pick q = some (i, d)) :
    q[i]? = some d ∧ eligible d = true ∧
      ∀ e ∈ q, eligible e = true → notWorse d e := by
  rcases pickFrom_mem _ _ _ _ h with ⟨hm, he⟩ | hacc
  · refine ⟨List.mk_mem_enum_iff_getElem?.mp hm, he, fun e hme helig => ?_⟩
    rcases List.mem_iff_getElem?.mp hme with ⟨j, hj⟩
    exact pickFrom_opt _ _ _ _ h j e (List.mk_mem_enum_iff_getElem?.mpr hj) helig
  · cases hacc

theorem pick_none {q : List Doc} (h : pick q = none) :
    ∀ e ∈ q, eligible e = false := by
  intro e hme
  rcases List.mem_iff_getElem?.mp hme with ⟨j, hj⟩
  exact (pickFrom_none _ _ h).2 j e (List.mk_mem_enum_iff_getElem?.mpr hj)

theorem pick_isSome {q : List Doc} {d : Doc} (hd : d ∈ q)
    (helig : eligible d = true) : ∃ i b, pick q = some (i, b) := by
  match hp : pick q with
  | some (i, b) => exact ⟨i, b, rfl⟩
  | none => exact absurd helig (by simp [pick_none hp d hd])

/-! ### Generic facts about the by-id and bulk update primitives -/

theorem updateFirst_no_match {p : Doc → Bool} {f : Doc → Doc} :
    ∀ {q : List Doc}, (∀ d ∈ q, p d = false) → updateFirst p f q = q
  | [], _ => rfl
  | d :: ds, h => by
      have hd : p d = false := h d (List.mem_cons_self _ _)
      simp only [updateFirst, hd, Bool.false_eq_true, if_false]
      rw [updateFirst_no_match fun e he => h e (List.mem_cons_of_mem _ he)]

theorem updateFirst_mem {p : Doc → Bool} {f : Doc → Doc} :
    ∀ {q : List Doc} {e : Doc}, e ∈ updateFirst p f q →
      e ∈ q ∨ ∃ d ∈ q, p d = true ∧ e = f d
  | [], e, h => absurd h (List.not_mem_nil _)
  | d :: ds, e, h => by
      by_cases hd : p d = true
      · simp only [updateFirst, hd, if_true] at h
        rcases List.mem_cons.mp h with he | he
        · exact .inr ⟨d, List.mem_cons_self _ _, hd, he⟩
        · exact .inl (List.mem_cons_of_mem _ he)
      · simp only [updateFirst, hd, if_false] at h
        rcases List.mem_cons.mp h with he | he
        · exact .inl (he ▸ List.mem_cons_self _ _)
        · rcases updateFirst_mem he with h1 | ⟨b, hb, hpb, hfb⟩
          · exact .inl (List.mem_cons_of_mem _ h1)
          · exact .inr ⟨b, List.mem_cons_of_mem _ hb, hpb, hfb⟩

theorem updateFirst_hit {p : Doc → Bool} {f : Doc → Doc} :
    ∀ {q : List Doc}, (∃ d ∈ q, p d = true) →
      ∃ d, p d = true ∧ f d ∈ updateFirst p f q
  | [], h => absurd h (by simp)
  | d :: ds, h => by
      by_cases hd : p d = true
      · refine ⟨d, hd, ?_⟩
        rw [updateFirst, if_pos hd]
        exact List.mem_cons_self _ _
      · obtain ⟨b, hb, hpb⟩ := h
        rcases List.mem_cons.mp hb with rfl | hb2
        · exact absurd hpb hd
        · obtain ⟨c, hpc, hmc⟩ := updateFirst_hit ⟨b, hb2, hpb⟩
          refine ⟨c, hpc, ?_⟩
          rw [updateFirst, if_neg hd]
          exact List.mem_cons_of_mem _ hmc

theorem updateFirst_idem {p : Doc → Bool} {f : Doc → Doc}
    (hf : ∀ d, p d = true → p (f d) = true ∧ f (f d) = f d) :
    ∀ (q : List Doc), updateFirst p f (updateFirst p f q) = updateFirst p f q
  | [] => rfl
  | d :: ds => by
      by_cases hd : p d = true
      · rw [updateFirst, if_pos hd, updateFirst, if_pos (hf d hd).1, (hf d hd).2]
      · rw [updateFirst, if_neg hd, updateFirst, if_neg hd, updateFirst_idem hf ds]

theorem updateFirst_set {p : Doc → Bool} {f : Doc → Doc} :
    ∀ {q : List Doc} {d : Doc}, q.find? p = some d →
      p d = true ∧ ∃ i, q[i]? = some d ∧ updateFirst p f q = q.set i (f d)
  | [], d, h => by simp at h
  | x :: xs, d, h => by
      by_cases hx : p x = true
      · rw [List.find?_cons_of_pos _ hx] at h
        cases h
        refine ⟨hx, 0, by simp, ?_⟩
        rw [updateFirst, if_pos hx]
        rfl
      · rw [List.find?_cons_of_neg _ hx] at h
        obtain ⟨hp, i, hi, hu⟩ := updateFirst_set (f := f) h
        refine ⟨hp, i + 1, by simpa using hi, ?_⟩
        rw [updateFirst, if_neg hx, hu]
        rfl

theorem updateFirst_find_none {p : Doc → Bool} {f : Doc → Doc} {q : List Doc}
    (h : q.find? p = none) : updateFirst p f q = q :=
  updateFirst_no_match (by simpa using List.find?_eq_none.mp h)

theorem deleteMany_fst {p : Doc → Bool} :
    ∀ (q : List Doc), (deleteMany p q).1 = q.filter (fun d => !p d)
  | [] => rfl
  | d :: ds => by
      by_cases hd : p d = true
      · simp [deleteMany, hd, List.filter, deleteMany_fst ds]
      · simp [deleteMany, hd, List.filter,
          Bool.not_eq_true' .. , deleteMany_fst ds]

theorem deleteMany_snd {p : Doc → Bool} :
    ∀ (q : List Doc), (deleteMany p q).2 = (q.filter p).length
  | [] => rfl
  | d :: ds => by
      by_cases hd : p d = true
      · simp [deleteMany, hd, List.filter, deleteMany_snd ds]
      · simp [deleteMany, hd, List.filter, deleteMany_snd ds]

theorem deleteMany_no_match {p : Doc → Bool} {q : List Doc}
    (h : ∀ d ∈ q, p d = false) : deleteMany p q = (q, 0) := by
  have h1 := deleteMany_fst (p := p) q
  have h2 := deleteMany_snd (p := p) q
  rw [List.filter_eq_self.mpr (by simpa using h)] at h1
  rw [List.filter_eq_nil_iff.mpr (by simpa using h)] at h2
  exact Prod.ext h1 h2

theorem updateMany_fst {p : Doc → Bool} {f : Doc → Doc} :
    ∀ (q : List Doc), (updateMany p f q).1 = q.map (fun d => if p d then f d else d)
  | [] => rfl
  | d :: ds => by
      by_cases hd : p d = true
      · simp [updateMany, hd, updateMany_fst ds]
      · simp [updateMany, hd, updateMany_fst ds]

theorem updateMany_snd {p : Doc → Bool} {f : Doc → Doc} :
    ∀ (q : List Doc), (updateMany p f q).2 = (q.filter p).length
  | [] => rfl
  | d :: ds => by
      by_cases hd : p d = true
      · simp [updateMany, hd, List.filter, updateMany_snd (f := f) ds]
      · simp [updateMany, hd, List.filter, updateMany_snd (f := f) ds]

theorem updateMany_no_match {p : Doc → Bool} {f : Doc → Doc} {q : List Doc}
    (h : ∀ d ∈ q, p d = false) : updateMany p f q = (q, 0) := by
  have h1 := updateMany_fst (f := f) (p := p) q
  have h2 := updateMany_snd (f := f) (p := p) q
  rw [List.map_congr_left (g := id) (by intro a ha; simp [h a ha])] at h1
  rw [List.filter_eq_nil_iff.mpr (by simpa using h)] at h2
  rw [List.map_id] at h1
  exact Prod.ext h1 h2

/-! ### Claims -/

/-- C1: when some document satisfies `locked = false AND complete = false AND
dead = false`, `get` selects one such document `d` that has maximal
`priority` and, among the eligible documents of equal priority, minimal
`created_at`; in the same update it sets `locked = true, locked_at = now` on
exactly that document (every other position of the collection is untouched),
and it returns only the pair `{id, message}` of the selected document. -/
theorem get_claims_best (now : Nat) (q : List Doc)
    (h : ∃ d ∈ q, eligible d = true) :
    ∃ i d, q[i]? = some d ∧ eligible d = true ∧
      (∀ e ∈ q, eligible e = true →
        e.priority ≤ d.priority ∧
          (e.priority = d.priority → d.created_at ≤ e.created_at)) ∧
      get now q =
        (q.set i { d with locked := true, locked_at := some now },
         .ok { id := d.id, message := d.message }) ∧
      (q.set i { d with locked := true, locked_at := some now })[i]? =
        some { d with locked := true, locked_at := some now } ∧
      (∀ j, j ≠ i →
        (q.set i { d with locked := true, locked_at := some now })[j]? = q[j]?) := by
  obtain ⟨d0, hd0, he0⟩ := h
  obtain ⟨i, d, hp⟩ := pick_isSome hd0 he0
  obtain ⟨hget, helig, hopt⟩ := pick_spec hp
  have hi : i < q.length := by
    by_contra hge
    rw [List.getElem?_eq_none (le_of_not_lt hge)] at hget
    cases hget
  refine ⟨i, d, hget, helig, fun e he he2 => hopt e he he2, ?_, ?_, ?_⟩
  · simp only [get, hp, lockDoc]
  · exact List.getElem?_set_eq_of_lt _ hi
  · intro j hj
    exact List.getElem?_set_ne (Ne.symm hj)

/-- Witness for C1 on a two-document queue: the higher-priority document
(id 2) is selected and locked, the other is untouched. -/
theorem get_claims_best_witness :
    (∃ d ∈ [pdoc 1 1 5, pdoc 2 5 9], eligible d = true) ∧
    (∃ i d, [pdoc 1 1 5, pdoc 2 5 9][i]? = some d ∧ eligible d = true ∧
      (∀ e ∈ [pdoc 1 1 5, pdoc 2 5 9], eligible e = true →
        e.priority ≤ d.priority ∧
          (e.priority = d.priority → d.created_at ≤ e.created_at)) ∧
      get 100 [pdoc 1 1 5, pdoc 2 5 9] =
        ([pdoc 1 1 5, pdoc 2 5 9].set i { d with locked := true, locked_at := some 100 },
         .ok { id := d.id, message := d.message }) ∧
      ([pdoc 1 1 5, pdoc 2 5 9].set i { d with locked := true, locked_at := some 100 })[i]? =
        some { d with locked := true, locked_at := some 100 } ∧
      (∀ j, j ≠ i →
        ([pdoc 1 1 5, pdoc 2 5 9].set i
          { d with locked := true, locked_at := some 100 })[j]? =
          [pdoc 1 1 5, pdoc 2 5 9][j]?)) :=
  ⟨⟨pdoc 1 1 5, by decide, by decide⟩,
   get_claims_best 100 [pdoc 1 1 5, pdoc 2 5 9] ⟨pdoc 1 1 5, by decide, by decide⟩⟩

/-- C2 (code bug): on a queue with no document matching the claim filter,
`findOneAndUpdate` hands the callback `doc.value = null`, and the callback
dereferences `doc.value._id`; the call therefore throws a `TypeError`
instead of signalling `NoItemAvailable`. -/
theorem get_no_item_throws (now : Nat) (q : List Doc)
    (h : ∀ d ∈ q, eligible d = false) :
    get now q = (q, .error .typeError) := by
  match hp : pick q with
  | none => simp [get, hp]
  | some (i, d) =>
      obtain ⟨hget, helig, -⟩ := pick_spec hp
      exact absurd helig (by simp [h d (List.mem_iff_getElem?.mpr ⟨i, hget⟩)])

/-- Witness for C2: the empty queue and a queue holding one locked, one
complete and one dead document all make `get` throw. -/
theorem get_no_item_throws_witness :
    (∀ d ∈ ([] : List Doc), eligible d = false) ∧
    get 7 [] = ([], .error .typeError) ∧
    (∀ d ∈ [{ pdoc 1 1 0 with locked := true }, { pdoc 2 1 0 with complete := true },
        { pdoc 3 1 0 with dead := true }], eligible d = false) ∧
    get 7 [{ pdoc 1 1 0 with locked := true }, { pdoc 2 1 0 with complete := true },
        { pdoc 3 1 0 with dead := true }] =
      ([{ pdoc 1 1 0 with locked := true }, { pdoc 2 1 0 with complete := true },
        { pdoc 3 1 0 with dead := true }], .error .typeError) :=
  ⟨by decide, get_no_item_throws 7 [] (by decide), by decide,
   get_no_item_throws 7 _ (by decide)⟩

/-- C3 (code bug): `fail`'s inner promise is resolved with no value
(`resolve()`), so the following `.then(doc => doc.retries >= maxRetries)`
dereferences `undefined`: every `fail` call rejects with a `TypeError`
after committing its update, `markDead` is never invoked, and after five
(= the default `maxRetries`) failures of the same item its `dead` flag is
still `false` and `get` still claims and returns it. -/
theorem fail_never_dead_letters :
    (mkQueue (JsVal.strV "mongodb://localhost/db") none).map QueueCfg.maxRetries =
      .ok 5 ∧
    (fail [pdoc 9 1 0] 9).2 = .error .typeError ∧
    (fail ((fail ((fail ((fail ((fail [pdoc 9 1 0] 9).1) 9).1) 9).1) 9).1) 9).1 =
      [{ pdoc 9 1 0 with retries := 5 }] ∧
    ({ pdoc 9 1 0 with retries := 5 }).dead = false ∧
    ({ pdoc 9 1 0 with retries := 5 }).retries = 5 ∧
    (get 50 [{ pdoc 9 1 0 with retries := 5 }]).2 =
      .ok { id := 9, message := "m" } :=
  ⟨rfl, rfl, by decide, rfl, rfl, by decide⟩

/-- C4 counterexample: `complete` against an id with no matching document
resolves successfully as a silent no-op — the callback never inspects the
driver's result, so no `NotFound` is ever signalled (contrast
`complete_specNotFound`, which follows the spec's words). -/
theorem complete_no_notFound_counterexample :
    complete 5 [] 3 = [] ∧
    complete_specNotFound 5 [] 3 = .error .notFound ∧
    complete 5 [pdoc 1 1 0] 3 = [pdoc 1 1 0] ∧
    complete_specNotFound 5 [pdoc 1 1 0] 3 = .error .notFound := by
  decide

/-- C4 (amended): `complete(id)` unconditionally (with no precondition on
the current lock state) sets `locked = false, complete = true,
completed_at = now` on the matching document, so repeating the call is a
safe no-op that still stamps completion; but when `id` does not resolve
to an existing document the call succeeds silently as a no-op instead of
signalling `NotFound`. -/
theorem complete_amended (now : Nat) (q : List Doc) (id : Nat) :
    ((∀ d ∈ q, d.id ≠ id) → complete now q id = q) ∧
    complete now (complete now q id) id = complete now q id ∧
    ((∃ d ∈ q, d.id = id) →
      ∃ e ∈ complete now q id, e.id = id ∧ e.locked = false ∧ e.complete = true ∧
        e.completed_at = some now) ∧
    (∀ e ∈ complete now q id, e.id ≠ id → e ∈ q) := by
  refine ⟨?_, ?_, ?_, ?_⟩
  · intro h
    exact updateFirst_no_match fun d hd => decide_eq_false (h d hd)
  · exact updateFirst_idem (p := fun d => d.id = id)
      (f := fun d => { d with locked := false, complete := true,
                              completed_at := some now })
      (fun d hd => ⟨hd, rfl⟩) q
  · intro h
    obtain ⟨d0, hm, hd0⟩ := h
    obtain ⟨d1, hp1, hm1⟩ :=
      updateFirst_hit (p := fun d => d.id = id) (q := q)
        (f := fun d => { d with locked := false, complete := true,
                                completed_at := some now })
        ⟨d0, hm, by simp [hd0]⟩
    exact ⟨_, hm1, of_decide_eq_true hp1, rfl, rfl, rfl⟩
  · intro e he hne
    rcases updateFirst_mem he with h1 | ⟨d0, hd0, hpd0, rfl⟩
    · exact h1
    · exact absurd (of_decide_eq_true hpd0) hne

/-- Witness for C4's amended statement at concrete inputs: a one-document
queue, a missing id (no-op), a present id (stamped), and idempotence. -/
theorem complete_amended_witness :
    ((∀ d ∈ [pdoc 1 1 0], d.id ≠ 2) ∧ complete 9 [pdoc 1 1 0] 2 = [pdoc 1 1 0]) ∧
    complete 9 (complete 9 [pdoc 1 1 0] 1) 1 = complete 9 [pdoc 1 1 0] 1 ∧
    ((∃ d ∈ [pdoc 1 1 0], d.id = 1) ∧
      ∃ e ∈ complete 9 [pdoc 1 1 0] 1, e.id = 1 ∧ e.locked = false ∧
        e.complete = true ∧ e.completed_at = some 9) :=
  ⟨⟨by decide, (complete_amended 9 [pdoc 1 1 0] 2).1 (by decide)⟩,
   (complete_amended 9 [pdoc 1 1 0] 1).2.1,
   ⟨by decide, (complete_amended 9 [pdoc 1 1 0] 1).2.2.1 (by decide)⟩⟩

/-- C5 counterexample: the engine's only purge operation, `clean`, deletes
`complete = true` documents; a `dead = true` (not complete) document is
not removed and the reported count is 0 — there is no `purgeDead`
operation in the engine. -/
theorem clean_not_purgeDead_counterexample :
    ({ pdoc 4 1 0 with dead := true }).dead = true ∧
    clean [{ pdoc 4 1 0 with dead := true }] =
      ([{ pdoc 4 1 0 with dead := true }], 0) := by
  decide

/-- C5 (amended): the engine provides a single purge operation, `clean`
(the spec's `purgeCompleted`), which deletes exactly the documents
matching `complete = true` and returns the count removed; calling it
again immediately afterward removes nothing and returns 0.  No `purgeDead`
operation exists, so `dead` documents are never purged. -/
theorem clean_spec (q : List Doc) :
    (clean q).1 = q.filter (fun d => !d.complete) ∧
    (clean q).2 = (q.filter (fun d => d.complete)).length ∧
    (∀ d ∈ (clean q).1, d.complete = false) ∧
    (∀ d ∈ q, d.complete = false → d ∈ (clean q).1) ∧
    clean (clean q).1 = ((clean q).1, 0) := by
  have h1 := deleteMany_fst (p := fun d => d.complete) q
  have h2 := deleteMany_snd (p := fun d => d.complete) q
  have hmem : ∀ d ∈ (clean q).1, d.complete = false := by
    intro d hd
    rw [clean, h1] at hd
    simpa using (List.mem_filter.mp hd).2
  refine ⟨h1, h2, hmem, ?_, ?_⟩
  · intro d hd hc
    rw [clean, h1]
    exact List.mem_filter.mpr ⟨hd, by simp [hc]⟩
  · exact deleteMany_no_match hmem

/-- Witness for C5's amended statement: a mixed queue where `clean`
removes the completed document, keeps the pending one, and a second call
removes nothing. -/
theorem clean_spec_witness :
    pdoc 1 1 0 ∈ (clean [pdoc 1 1 0, { pdoc 2 1 0 with complete := true }]).1 ∧
    clean (clean [pdoc 1 1 0, { pdoc 2 1 0 with complete := true }]).1 =
      ((clean [pdoc 1 1 0, { pdoc 2 1 0 with complete := true }]).1, 0) :=
  ⟨(clean_spec [pdoc 1 1 0, { pdoc 2 1 0 with complete := true }]).2.2.2.1
      (pdoc 1 1 0) (by decide) (by decide),
   (clean_spec [pdoc 1 1 0, { pdoc 2 1 0 with complete := true }]).2.2.2.2⟩

/-- C6 counterexample: `fail`'s update is `$set: { locked: false },
`$inc: { retries: 1 }` — it does not clear `locked_at`: after failing a
locked document whose `locked_at` is 10, `locked_at` is still 10. -/
theorem fail_keeps_locked_at_counterexample :
    lockedDoc10.locked_at = some 10 ∧
    (fail [lockedDoc10] 1).1 =
      [{ lockedDoc10 with locked := false, retries := 1 }] ∧
    ({ lockedDoc10 with locked := false, retries := 1 }).locked_at = some 10 := by
  decide

/-- C6 (amended): for an existing item id, `fail(id)` performs a single
atomic update on the matching document that sets `locked = false` and
increments `retries` by exactly 1, leaving every other field — including
`locked_at`, which is not cleared — unchanged; all other positions of the
collection are untouched. -/
theorem fail_amended (q : List Doc) (id : Nat) {d : Doc}
    (h : q.find? (fun x => x.id = id) = some d) :
    ∃ i, q[i]? = some d ∧
      (fail q id).1 = q.set i { d with locked := false, retries := d.retries + 1 } ∧
      ({ d with locked := false, retries := d.retries + 1 }).locked_at = d.locked_at ∧
      ({ d with locked := false, retries := d.retries + 1 }).id = d.id ∧
      ({ d with locked := false, retries := d.retries + 1 }).message = d.message ∧
      ({ d with locked := false, retries := d.retries + 1 }).priority = d.priority ∧
      ({ d with locked := false, retries := d.retries + 1 }).created_at = d.created_at ∧
      ({ d with locked := false, retries := d.retries + 1 }).complete = d.complete ∧
      ({ d with locked := false, retries := d.retries + 1 }).completed_at =
        d.completed_at ∧
      ({ d with locked := false, retries := d.retries + 1 }).dead = d.dead ∧
      (∀ j, j ≠ i → ((fail q id).1)[j]? = q[j]?) := by
  obtain ⟨hp, i, hi, hu⟩ :=
    updateFirst_set (f := fun x => { x with locked := false, retries := x.retries + 1 }) h
  refine ⟨i, hi, hu, rfl, rfl, rfl, rfl, rfl, rfl, rfl, rfl, ?_⟩
  intro j hj
  have hu2 : (fail q id).1 = q.set i { d with locked := false, retries := d.retries + 1 } := hu
  rw [hu2]
  exact List.getElem?_set_ne (Ne.symm hj)

/-- Witness for C6's amended statement on a one-document queue whose item
is locked at time 10. -/
theorem fail_amended_witness :
    [lockedDoc10].find? (fun x => x.id = 1) = some lockedDoc10 ∧
    ∃ i, [lockedDoc10][i]? = some lockedDoc10 ∧
      (fail [lockedDoc10] 1).1 =
        [lockedDoc10].set i
          { lockedDoc10 with locked := false, retries := lockedDoc10.retries + 1 } ∧
      ({ lockedDoc10 with locked := false, retries := lockedDoc10.retries + 1 }).locked_at = lockedDoc10.locked_at ∧
      ({ lockedDoc10 with locked := false, retries := lockedDoc10.retries + 1 }).id = lockedDoc10.id ∧
      ({ lockedDoc10 with locked := false, retries := lockedDoc10.retries + 1 }).message = lockedDoc10.message ∧
      ({ lockedDoc10 with locked := false, retries := lockedDoc10.retries + 1 }).priority = lockedDoc10.priority ∧
      ({ lockedDoc10 with locked := false, retries := lockedDoc10.retries + 1 }).created_at = lockedDoc10.created_at ∧
      ({ lockedDoc10 with locked := false, retries := lockedDoc10.retries + 1 }).complete = lockedDoc10.complete ∧
      ({ lockedDoc10 with locked := false, retries := lockedDoc10.retries + 1 }).completed_at = lockedDoc10.completed_at ∧
      ({ lockedDoc10 with locked := false, retries := lockedDoc10.retries + 1 }).dead = lockedDoc10.dead ∧
      (∀ j, j ≠ i → ((fail [lockedDoc10] 1).1)[j]? = [lockedDoc10][j]?) :=
  ⟨by decide, fail_amended [lockedDoc10] 1 (by decide)⟩

/-- C7 counterexample: `markDead` is a public engine operation that sets
`dead = true` unconditionally: applied to a freshly enqueued item
(reachable via `add`), it yields `dead = true` while `retries = 0`, below
the default `maxRetries = 5` — the item was never in a failed-claim state. -/
theorem markDead_unconditional_counterexample :
    add 0 10 [] (some "m") none = .ok ([pdoc 0 1 10], pdoc 0 1 10) ∧
    markDead [pdoc 0 1 10] 0 = [{ pdoc 0 1 10 with dead := true }] ∧
    ({ pdoc 0 1 10 with dead := true }).dead = true ∧
    ({ pdoc 0 1 10 with dead := true }).retries = 0 ∧
    (mkQueue (JsVal.strV "mongodb://localhost/db") none).map QueueCfg.maxRetries =
      .ok 5 ∧
    (0 : Nat) < 5 :=
  ⟨rfl, by decide, rfl, rfl, rfl, by decide⟩

/-- C7 (amended): an item's `dead` flag becomes true only through an
explicit `markDead` call, and `markDead` imposes no precondition at all
(neither `retries >= maxRetries` nor a failed claim); no other public
operation (`add`, `get`, `complete`, `fail`, `clean`, `free`) ever sets
`dead` — in particular `fail` never dead-letters, since it rejects before
its retries check — so every dead document in their output stems from an
input document that was already dead and carries the same id. -/
theorem dead_only_from_markDead (now release next : Nat) (q : List Doc) (id : Nat)
    (msg : Option String) (pri : Option Int) :
    (∀ e ∈ (get now q).1, e.dead = true → ∃ d ∈ q, d.dead = true ∧ d.id = e.id) ∧
    (∀ e ∈ complete now q id, e.dead = true → ∃ d ∈ q, d.dead = true ∧ d.id = e.id) ∧
    (∀ e ∈ (fail q id).1, e.dead = true → ∃ d ∈ q, d.dead = true ∧ d.id = e.id) ∧
    (∀ e ∈ (free release now q).1, e.dead = true →
      ∃ d ∈ q, d.dead = true ∧ d.id = e.id) ∧
    (∀ e ∈ (clean q).1, e.dead = true → ∃ d ∈ q, d.dead = true ∧ d.id = e.id) ∧
    (∀ q2 doc, add next now q msg pri = .ok (q2, doc) →
      ∀ e ∈ q2, e.dead = true → ∃ d ∈ q, d.dead = true ∧ d.id = e.id) := by
  refine ⟨?_, ?_, ?_, ?_, ?_, ?_⟩
  · intro e he hdead
    cases hp : pick q with
    | none =>
        simp only [get, hp] at he
        exact ⟨e, he, hdead, rfl⟩
    | some v =>
        obtain ⟨i, d⟩ := v
        simp only [get, hp] at he
        rcases List.mem_or_eq_of_mem_set he with h1 | rfl
        · exact ⟨e, h1, hdead, rfl⟩
        · have hd : d ∈ q := List.mem_iff_getElem?.mpr ⟨i, (pick_spec hp).1⟩
          exact ⟨d, hd, hdead, rfl⟩
  · intro e he hdead
    rcases updateFirst_mem he with h1 | ⟨d0, hd0, -, rfl⟩
    · exact ⟨e, h1, hdead, rfl⟩
    · exact ⟨d0, hd0, hdead, rfl⟩
  · intro e he hdead
    rcases updateFirst_mem he with h1 | ⟨d0, hd0, -, rfl⟩
    · exact ⟨e, h1, hdead, rfl⟩
    · exact ⟨d0, hd0, hdead, rfl⟩
  · intro e he hdead
    have h1 : (free release now q).1 = _ := updateMany_fst q
    rw [h1] at he
    obtain ⟨d0, hd0, rfl⟩ := List.mem_map.mp he
    by_cases hx : expired release now d0 = true
    · rw [if_pos hx] at hdead ⊢
      exact ⟨d0, hd0, hdead, rfl⟩
    · rw [if_neg hx] at hdead ⊢
      exact ⟨d0, hd0, hdead, rfl⟩
  · intro e he hdead
    have h1 : (clean q).1 = _ := deleteMany_fst q
    rw [h1] at he
    exact ⟨e, (List.mem_filter.mp he).1, hdead, rfl⟩
  · intro q2 doc hadd e he hdead
    by_cases hf : jsFalsyMsg msg = true
    · rw [add, if_pos hf] at hadd
      exact Except.noConfusion hadd
    · rw [add, if_neg hf] at hadd
      obtain ⟨h1, -⟩ := Prod.mk.injEq .. ▸ Except.ok.inj hadd
      subst h1
      rcases List.mem_append.mp he with h2 | h2
      · exact ⟨e, h2, hdead, rfl⟩
      · rw [List.mem_singleton.mp h2] at hdead
        exact absurd hdead (by simp)

/-- Witness for C7's amended statement: failing item 8 in a queue that
already holds a dead item 7 leaves a dead document that stems from the
input queue. -/
theorem dead_only_from_markDead_witness :
    ∃ d ∈ [{ pdoc 7 1 0 with dead := true }, pdoc 8 1 0],
      d.dead = true ∧ d.id = ({ pdoc 7 1 0 with dead := true } : Doc).id :=
  (dead_only_from_markDead 20 30 9 [{ pdoc 7 1 0 with dead := true }, pdoc 8 1 0] 8
      (some "x") none).2.2.1 { pdoc 7 1 0 with dead := true } (by decide) (by decide)

/-- C8: `free` with the configured lease time updates exactly the
documents matching `locked = true AND locked_at <= now - release` to
`locked = false` with `locked_at` cleared (every other position is
untouched), and returns the number of documents modified; when no lease
has expired it returns 0 and changes nothing. -/
theorem free_reclaims_expired (release now : Nat) (q : List Doc) :
    (∀ d : Doc, expired release now d = true ↔
      d.locked = true ∧ ∃ t, d.locked_at = some t ∧
        (t : Int) ≤ (now : Int) - (release : Int)) ∧
    (free release now q).1.length = q.length ∧
    (∀ (i : Nat) (d : Doc), q[i]? = some d →
      (expired release now d = true →
        ((free release now q).1)[i]? =
          some { d with locked := false, locked_at := none }) ∧
      (expired release now d = false → ((free release now q).1)[i]? = some d)) ∧
    (free release now q).2 = (q.filter (expired release now)).length ∧
    ((∀ d ∈ q, expired release now d = false) → free release now q = (q, 0)) := by
  have hfst : (free release now q).1 = _ := updateMany_fst q
  refine ⟨?_, ?_, ?_, updateMany_snd q, fun h => updateMany_no_match h⟩
  · intro d
    cases hla : d.locked_at <;> simp [expired, hla]
  · rw [hfst, List.length_map]
  · intro i d hi
    constructor
    · intro hx
      rw [hfst, List.getElem?_map, hi]
      simp [hx]
    · intro hx
      rw [hfst, List.getElem?_map, hi]
      simp [hx]

/-- Witness for C8: with release 30 at now = 100, a lock taken at 95 has
not expired (`free` returns 0 and changes nothing), while a lock taken at
70 is reclaimed in place. -/
theorem free_reclaims_expired_witness :
    ((∀ d ∈ [{ pdoc 1 1 0 with locked := true, locked_at := some 95 }],
        expired 30 100 d = false) ∧
      free 30 100 [{ pdoc 1 1 0 with locked := true, locked_at := some 95 }] =
        ([{ pdoc 1 1 0 with locked := true, locked_at := some 95 }], 0)) ∧
    (expired 30 100 { pdoc 2 1 0 with locked := true, locked_at := some 70 } = true ∧
      ((free 30 100 [{ pdoc 2 1 0 with locked := true, locked_at := some 70 }]).1)[0]? =
        some { { pdoc 2 1 0 with locked := true, locked_at := some 70 } with locked := false, locked_at := none }) :=
  ⟨⟨by decide, (free_reclaims_expired 30 100 _).2.2.2.2 (by decide)⟩,
   ⟨by decide,
    ((free_reclaims_expired 30 100
        [{ pdoc 2 1 0 with locked := true, locked_at := some 70 }]).2.2.1 0
      { pdoc 2 1 0 with locked := true, locked_at := some 70 } (by decide)).1
      (by decide)⟩⟩

/-- C9: `add` rejects with `InvalidArgument` when the message is empty or
absent; otherwise it appends exactly one new document carrying the given
priority (or 1 when the priority argument is unset or falsy),
`created_at = now`, the `defaultDoc` lifecycle fields (`locked = false`,
`locked_at` absent, `retries = 0`, `complete = false`, `dead = false`),
and returns the stored document including its assigned identifier. -/
theorem add_inserts_default_doc (next now : Nat) (q : List Doc)
    (msg : Option String) (pri : Option Int) :
    (jsFalsyMsg msg = true → add next now q msg pri = .error .invalidArgument) ∧
    (jsFalsyMsg msg = false →
      ∃ d, add next now q msg pri = .ok (q ++ [d], d) ∧
        d.id = next ∧ d.message = msg.getD "" ∧ d.created_at = now ∧
        d.locked = false ∧ d.locked_at = none ∧ d.retries = 0 ∧
        d.complete = false ∧ d.completed_at = none ∧ d.dead = false ∧
        (∀ p, pri = some p → p ≠ 0 → d.priority = p) ∧
        ((pri = none ∨ pri = some 0) → d.priority = 1)) := by
  constructor
  · intro h
    rw [add, if_pos h]
  · intro h
    refine ⟨{ id := next, message := msg.getD "", priority := effPriority pri,
              created_at := now, locked := false, locked_at := none, retries := 0,
              complete := false, completed_at := none, dead := false },
            by rw [add, if_neg (by simp [h])], rfl, rfl, rfl, rfl, rfl, rfl, rfl, rfl,
            rfl, ?_, ?_⟩
    · intro p hp hp0
      simp [effPriority, hp, hp0]
    · rintro (rfl | rfl) <;> simp [effPriority]

/-- Witness for C9: the empty message is rejected; a real message is
stored with its defaults and returned (priority 3, id 5, enqueued at 20). -/
theorem add_inserts_default_doc_witness :
    (jsFalsyMsg (some "") = true ∧
      add 5 20 [] (some "") (some 3) = .error .invalidArgument) ∧
    (jsFalsyMsg (some "job") = false ∧
      ∃ d, add 5 20 [] (some "job") (some 3) = .ok ([] ++ [d], d) ∧
        d.id = 5 ∧ d.message = (some "job").getD "" ∧ d.created_at = 20 ∧
        d.locked = false ∧ d.locked_at = none ∧ d.retries = 0 ∧
        d.complete = false ∧ d.completed_at = none ∧ d.dead = false ∧
        (∀ p, some (3 : Int) = some p → p ≠ 0 → d.priority = p) ∧
        ((some (3 : Int) = none ∨ some (3 : Int) = some 0) → d.priority = 1)) :=
  ⟨⟨by decide, (add_inserts_default_doc 5 20 [] (some "") (some 3)).1 (by decide)⟩,
   ⟨by decide, (add_inserts_default_doc 5 20 [] (some "job") (some 3)).2 (by decide)⟩⟩

/-- C10: the `Queue` constructor throws synchronously — it is a pure
record of configuration, interacting with no store (connections are opened
lazily by `connect`) — whenever the connection-string argument is missing
(`undefined`, which is not a string value) or not a string, whatever the
options argument is. -/
theorem mkQueue_requires_string (c : JsVal) (opts : Option QOptions)
    (h : c.isStr = false) : mkQueue c opts = .error .invalidArgument := by
  simp [mkQueue, h]

/-- Witness for C10: a numeric connection string and a missing one are
both rejected, with and without an options object. -/
theorem mkQueue_requires_string_witness :
    (JsVal.numV 3).isStr = false ∧
    mkQueue (JsVal.numV 3) none = .error .invalidArgument ∧
    JsVal.undef.isStr = false ∧
    mkQueue JsVal.undef (some {}) = .error .invalidArgument :=
  ⟨rfl, mkQueue_requires_string _ none rfl, rfl,
   mkQueue_requires_string _ (some {}) rfl⟩

end Squeue
